import Mathlib

/-!
# Verification of the drift-diffusion replicator (`src/main.rs`)

Shallow embedding of the random-walk simulation engine.  The single source
file defines `struct ModelResult` and `fn execute_model`, which runs
`num_reps` independent trials; each trial draws per-step samples from a
normal distribution `Normal::new(drift, sdrw)`, accumulates them, records
the running sum in an `evidence` vector, and returns early with a
`ModelResult` as soon as `acc.abs() > criterion`.  Trials that exhaust
`max_samples` steps produce `None` and are dropped by `filter_map`.
`execute_model` ends with `Ok(results)`; the error branch of its
`Result<Vec<ModelResult>, ()>` type is never constructed.

Modelling decisions:
* `f64` values are embedded as `ℚ` (every `f64` value is rational), keeping
  every definition executable and every comparison decidable.  Floating-point
  rounding is abstracted away: accumulation is exact addition.
* The random draws `distrib.random()` are abstracted as an oracle
  `samples : Nat → Nat → ℚ`: `samples i k` is the `k`-th draw made by trial
  `i`.  The distribution object `Normal::new(drift, sdrw)` is a plain record
  constructor in the source's dependency; `drift` and `sdrw` are kept as
  parameters of `execute_model` but only feed the (abstracted) sampler.
* Rust's `f64::is_sign_positive` is `0 ≤ x` on ℚ: the reals/rationals have
  no negative zero, and exact accumulation never produces one.
* The rayon parallel fan-out has no cross-trial shared state; `collect`
  gathers the per-trial outcomes, which we model as the sequential
  `List.filterMap` over trial indices `0..num_reps`.
-/

/-- Mirrors `struct ModelResult { latency: usize, response: bool, evidence: Vec<f64> }`. -/
structure ModelResult where
  latency : Nat
  response : Bool
  evidence : List ℚ
deriving Repr, DecidableEq

/-- The body of `for latency in 0..max_samples { .. }` in `execute_model`.
`fuel` is the number of loop iterations still available
(`max_samples - latency`), `latency` the current loop index, `acc` the
accumulator and `evidence` the trace built so far.  Each iteration draws
`v = samples latency`, sets `acc = acc + v`, pushes `acc` onto the trace and
returns `Some` of a `ModelResult` as soon as `acc.abs() > criterion`
(with `response = acc.is_sign_positive()`); falling out of the loop yields
`None` (the abandoned-trial branch). -/
def trialLoop (samples : Nat → ℚ) (criterion : ℚ) :
    Nat → Nat → ℚ → List ℚ → Option ModelResult
  | 0, _, _, _ => none
  | fuel + 1, latency, acc, evidence =>
    let v := samples latency
    let acc2 := acc + v
    let evidence2 := evidence ++ [acc2]
    if criterion < |acc2| then
      some { latency := latency, response := decide (0 ≤ acc2), evidence := evidence2 }
    else
      trialLoop samples criterion fuel (latency + 1) acc2 evidence2

/-- One trial of `execute_model`'s `filter_map` closure: accumulator
initialised to `0.0`, empty evidence trace, loop index starting at `0` with
`max_samples` iterations available. -/
def runTrial (samples : Nat → ℚ) (max_samples : Nat) (criterion : ℚ) :
    Option ModelResult :=
  trialLoop samples criterion max_samples 0 0 []

/-- `fn execute_model(num_reps, max_samples, drift, sdrw, criterion)
-> Result<Vec<ModelResult>, ()>`.  The source constructs
`Normal::new(drift, sdrw)` (abstracted into the `samples` oracle), runs the
per-trial closure over `(0..num_reps)` with `filter_map`, collects, and
returns `Ok(results)` unconditionally — there is no parameter validation
and no statement producing the `Err` variant. -/
def execute_model (num_reps max_samples : Nat) (drift sdrw criterion : ℚ)
    (samples : Nat → Nat → ℚ) : Except Unit (List ModelResult) :=
  Except.ok ((List.range num_reps).filterMap
    (fun i => runTrial (samples i) max_samples criterion))

/-- The exact accumulator value after `n` draws from the stream `s`,
starting from `0.0`: `sumTo s n = s 0 + s 1 + ⋯ + s (n-1)`. -/
def sumTo (s : Nat → ℚ) : Nat → ℚ
  | 0 => 0
  | n + 1 => sumTo s n + s n

/-- The cumulative-sum trace of the first `n` accumulator values:
`[s 0, s 0 + s 1, …]`, i.e. entry `j` is `sumTo s (j+1)`. -/
def cumTrace (s : Nat → ℚ) (n : Nat) : List ℚ :=
  (List.range n).map (fun j => sumTo s (j + 1))

theorem cumTrace_length (s : Nat → ℚ) (n : Nat) : (cumTrace s n).length = n := by
  simp [cumTrace]

theorem cumTrace_succ (s : Nat → ℚ) (n : Nat) :
    cumTrace s (n + 1) = cumTrace s n ++ [sumTo s (n + 1)] := by
  simp [cumTrace, List.range_succ]

theorem cumTrace_getD (s : Nat → ℚ) (n j : Nat) (hj : j < n) :
    (cumTrace s n).getD j 0 = sumTo s (j + 1) := by
  simp [cumTrace, List.getD_eq_getElem?_getD, List.getElem?_map, List.getElem?_range hj]

/-- Master invariant of the per-trial loop: starting iteration `lat` with the
accumulator equal to `sumTo s lat` and the trace equal to `cumTrace s lat`,
any returned result has the cumulative-sum trace of length `latency + 1`, a
crossing at its last entry, no crossing earlier (given none happened before
`lat`), and `response` equal to the sign test on the crossing value. -/
theorem trialLoop_spec (s : Nat → ℚ) (c : ℚ) :
    ∀ (fuel lat : Nat) (r : ModelResult),
      trialLoop s c fuel lat (sumTo s lat) (cumTrace s lat) = some r →
      (∀ j < lat, |sumTo s (j + 1)| ≤ c) →
      lat ≤ r.latency ∧ r.latency < lat + fuel ∧
      r.evidence = cumTrace s (r.latency + 1) ∧
      c < |sumTo s (r.latency + 1)| ∧
      (∀ j < r.latency, |sumTo s (j + 1)| ≤ c) ∧
      r.response = decide (0 ≤ sumTo s (r.latency + 1)) := by
  intro fuel
  induction fuel with
  | zero => intro lat r h _; simp [trialLoop] at h
  | succ fuel ih =>
    intro lat r h hprev
    have hstep : trialLoop s c (fuel + 1) lat (sumTo s lat) (cumTrace s lat) =
        if c < |sumTo s lat + s lat| then
          some ⟨lat, decide (0 ≤ sumTo s lat + s lat), cumTrace s lat ++ [sumTo s lat + s lat]⟩
        else
          trialLoop s c fuel (lat + 1) (sumTo s lat + s lat)
            (cumTrace s lat ++ [sumTo s lat + s lat]) := rfl
    rw [hstep] at h
    by_cases hc : c < |sumTo s lat + s lat|
    · rw [if_pos hc] at h
      have hr : r = ⟨lat, decide (0 ≤ sumTo s lat + s lat),
          cumTrace s lat ++ [sumTo s lat + s lat]⟩ :=
        (Option.some.injEq _ _).mp h.symm
      subst hr
      have hsum : sumTo s lat + s lat = sumTo s (lat + 1) := rfl
      refine ⟨le_rfl, Nat.lt_add_of_pos_right (Nat.succ_pos fuel), ?_, ?_, ?_, ?_⟩
      · show cumTrace s lat ++ [sumTo s lat + s lat] = cumTrace s (lat + 1)
        rw [hsum, cumTrace_succ]
      · exact hsum ▸ hc
      · exact hprev
      · show decide (0 ≤ sumTo s lat + s lat) = decide (0 ≤ sumTo s (lat + 1))
        rw [hsum]
    · rw [if_neg hc] at h
      have hacc : sumTo s lat + s lat = sumTo s (lat + 1) := rfl
      rw [hacc, show cumTrace s lat ++ [sumTo s (lat + 1)] = cumTrace s (lat + 1) from
        (cumTrace_succ s lat).symm] at h
      have hprev' : ∀ j < lat + 1, |sumTo s (j + 1)| ≤ c := by
        intro j hj
        rcases Nat.lt_succ_iff_lt_or_eq.mp hj with hj' | hj'
        · exact hprev j hj'
        · subst hj'; exact le_of_not_lt (by simpa [hacc] using hc)
      obtain ⟨h1, h2, h3, h4, h5, h6⟩ := ih (lat + 1) r h hprev'
      exact ⟨by omega, by omega, h3, h4, h5, h6⟩

/-- Specification of one trial: a returned `ModelResult` has
`latency < max_samples`, evidence trace `cumTrace` of length `latency + 1`,
a first crossing exactly at `latency`, and the sign-test response. -/
theorem runTrial_spec (s : Nat → ℚ) (max_samples : Nat) (c : ℚ) (r : ModelResult)
    (h : runTrial s max_samples c = some r) :
    r.latency < max_samples ∧
    r.evidence = cumTrace s (r.latency + 1) ∧
    c < |sumTo s (r.latency + 1)| ∧
    (∀ j < r.latency, |sumTo s (j + 1)| ≤ c) ∧
    r.response = decide (0 ≤ sumTo s (r.latency + 1)) := by
  have h0 : trialLoop s c max_samples 0 (sumTo s 0) (cumTrace s 0) = some r := by
    simpa [sumTo, cumTrace] using h
  obtain ⟨_, h2, h3, h4, h5, h6⟩ :=
    trialLoop_spec s c max_samples 0 r h0 (by intro j hj; omega)
  exact ⟨by omega, h3, h4, h5, h6⟩

/-- Raising the remaining fuel preserves a successful trial outcome: the loop
returns at the first crossing, which is unchanged by a larger budget. -/
theorem trialLoop_mono (s : Nat → ℚ) (c : ℚ) :
    ∀ (fuel fuel' lat : Nat) (acc : ℚ) (ev : List ℚ) (r : ModelResult),
      fuel ≤ fuel' →
      trialLoop s c fuel lat acc ev = some r →
      trialLoop s c fuel' lat acc ev = some r := by
  intro fuel
  induction fuel with
  | zero => intro fuel' lat acc ev r _ h; simp [trialLoop] at h
  | succ fuel ih =>
    intro fuel' lat acc ev r hle h
    obtain ⟨fuel'', rfl⟩ : ∃ k, fuel' = k + 1 :=
      ⟨fuel' - 1, by omega⟩
    have hstep : ∀ n, trialLoop s c (n + 1) lat acc ev =
        if c < |acc + s lat| then
          some ⟨lat, decide (0 ≤ acc + s lat), ev ++ [acc + s lat]⟩
        else
          trialLoop s c n (lat + 1) (acc + s lat) (ev ++ [acc + s lat]) :=
      fun n => rfl
    rw [hstep fuel] at h
    rw [hstep fuel'']
    by_cases hc : c < |acc + s lat|
    · rw [if_pos hc] at h ⊢; exact h
    · rw [if_neg hc] at h ⊢
      exact ih fuel'' (lat + 1) (acc + s lat) (ev ++ [acc + s lat]) r (by omega) h

/-- A trial that succeeds within `m1` samples succeeds, with the identical
outcome, within any larger budget `m2`. -/
theorem runTrial_mono (s : Nat → ℚ) (c : ℚ) (m1 m2 : Nat) (r : ModelResult)
    (hle : m1 ≤ m2) (h : runTrial s m1 c = some r) :
    runTrial s m2 c = some r :=
  trialLoop_mono s c m1 m2 0 0 [] r hle h

/-- If `f` refines to `g` on every element (every `some` of `f` is kept by
`g`), the filtered list for `g` is at least as long. -/
theorem length_filterMap_mono {α β : Type} (f g : α → Option β) :
    ∀ l : List α, (∀ a ∈ l, ∀ b, f a = some b → g a = some b) →
      (l.filterMap f).length ≤ (l.filterMap g).length := by
  intro l
  induction l with
  | nil => intro _; simp
  | cons a l ih =>
    intro hfg
    have hl : (l.filterMap f).length ≤ (l.filterMap g).length :=
      ih fun x hx => hfg x (List.mem_cons_of_mem a hx)
    cases hf : f a with
    | none =>
      rw [List.filterMap_cons, hf]
      cases hg : g a with
      | none => rw [List.filterMap_cons, hg]; exact hl
      | some b => rw [List.filterMap_cons, hg]; simp; omega
    | some b =>
      have hg : g a = some b := hfg a (List.mem_cons_self a l) b hf
      rw [List.filterMap_cons, hf, List.filterMap_cons, hg]
      simpa using hl

/-- The number of kept elements of a `filterMap` is the number of elements
on which the function returns `some`. -/
theorem length_filterMap_eq_countP {α β : Type} (f : α → Option β) :
    ∀ l : List α, (l.filterMap f).length = l.countP (fun a => (f a).isSome) := by
  intro l
  induction l with
  | nil => simp
  | cons a l ih =>
    cases hf : f a with
    | none => rw [List.filterMap_cons, hf, List.countP_cons]; simp [hf, ih]
    | some b => rw [List.filterMap_cons, hf, List.countP_cons]; simp [hf, ih]

/-- Unfolding a successful `execute_model` call: the returned collection is
exactly the `filterMap` of the per-trial computation over `0..num_reps`. -/
theorem execute_model_ok_elim (n ms : Nat) (d sd c : ℚ) (samp : Nat → Nat → ℚ)
    (results : List ModelResult)
    (h : execute_model n ms d sd c samp = Except.ok results) :
    results = (List.range n).filterMap (fun i => runTrial (samp i) ms c) := by
  have h' := h.symm
  rw [execute_model] at h'
  exact (Except.ok.injEq _ _).mp h'

/-- Every member of a returned collection is the outcome of one of the
`num_reps` trials. -/
theorem execute_model_mem_elim (n ms : Nat) (d sd c : ℚ) (samp : Nat → Nat → ℚ)
    (results : List ModelResult) (r : ModelResult)
    (hok : execute_model n ms d sd c samp = Except.ok results) (hr : r ∈ results) :
    ∃ i < n, runTrial (samp i) ms c = some r := by
  rw [execute_model_ok_elim n ms d sd c samp results hok] at hr
  obtain ⟨i, hi, hri⟩ := List.mem_filterMap.mp hr
  exact ⟨i, List.mem_range.mp hi, hri⟩

/-- C1 (counterexample): the claim says a call with `sdrw = 0.0` fails with a
configuration error, performs no sampling and returns no results.  On the
code, the very same call succeeds: with `sdrw = 0` (and a sample stream
drawing `2` each step) `execute_model` returns `Ok` carrying a sampled,
crossed trial outcome — sampling did happen and a result was returned. -/
theorem execute_model_sdrw_zero_succeeds :
    execute_model 1 1 0 0 1 (fun _ _ => 2) = Except.ok [⟨0, true, [2]⟩] :=
  congrArg Except.ok
    (by norm_num [List.range_succ, runTrial, trialLoop, List.filterMap_cons])

/-- C1 (amended): `execute_model` performs no parameter validation at all: a
call with `sdrw ≤ 0` or `criterion ≤ 0` does not fail with a configuration
error — it proceeds to construct the distribution, samples, and returns `Ok`
with exactly the collection produced by the per-trial loop. -/
theorem execute_model_no_validation (n ms : Nat) (d sd c : ℚ)
    (samp : Nat → Nat → ℚ) (hinvalid : sd ≤ 0 ∨ c ≤ 0) :
    execute_model n ms d sd c samp =
      Except.ok ((List.range n).filterMap (fun i => runTrial (samp i) ms c)) :=
  rfl

/-- Witness for C1 (amended) at `sdrw = 0`. -/
theorem execute_model_no_validation_witness :
    ((0 : ℚ) ≤ 0 ∨ (1 : ℚ) ≤ 0) ∧
    execute_model 3 2 0 0 1 (fun _ _ => 1) =
      Except.ok ((List.range 3).filterMap
        (fun i => runTrial ((fun _ _ => (1 : ℚ)) i) 2 1)) :=
  ⟨Or.inl le_rfl, execute_model_no_validation 3 2 0 0 1 (fun _ _ => 1) (Or.inl le_rfl)⟩

/-- C2: for valid parameters (`sdrw > 0`, `criterion > 0`), every returned
outcome crosses at `latency` — `abs(evidence[latency]) > criterion` — and at
no earlier index: `abs(evidence[j]) ≤ criterion` for all `j < latency`. -/
theorem execute_model_first_crossing (n ms : Nat) (d sd c : ℚ)
    (samp : Nat → Nat → ℚ) (results : List ModelResult) (r : ModelResult)
    (hsd : 0 < sd) (hc : 0 < c)
    (hok : execute_model n ms d sd c samp = Except.ok results)
    (hr : r ∈ results) :
    c < |r.evidence.getD r.latency 0| ∧
    ∀ j < r.latency, |r.evidence.getD j 0| ≤ c := by
  obtain ⟨i, _, hsome⟩ := execute_model_mem_elim n ms d sd c samp results r hok hr
  obtain ⟨_, hev, hcross, hearlier, _⟩ := runTrial_spec (samp i) ms c r hsome
  constructor
  · rw [hev, cumTrace_getD (samp i) (r.latency + 1) r.latency (Nat.lt_succ_self _)]
    exact hcross
  · intro j hj
    rw [hev, cumTrace_getD (samp i) (r.latency + 1) j (by omega)]
    exact hearlier j hj

/-- Witness for C2: a two-step walk with draws `1/2, 1` against
`criterion = 1` crosses first at `latency = 1`. -/
theorem execute_model_first_crossing_witness :
    (0 : ℚ) < 1 ∧
    ((1 : ℚ) < |(⟨1, true, [1/2, 3/2]⟩ : ModelResult).evidence.getD
        (⟨1, true, [1/2, 3/2]⟩ : ModelResult).latency 0| ∧
      ∀ j < (⟨1, true, [1/2, 3/2]⟩ : ModelResult).latency,
        |(⟨1, true, [1/2, 3/2]⟩ : ModelResult).evidence.getD j 0| ≤ 1) := by
  refine ⟨by norm_num, ?_⟩
  have hok : execute_model 1 3 0 1 1 (fun _ k => if k = 0 then 1/2 else 1) =
      Except.ok [⟨1, true, [1/2, 3/2]⟩] :=
    congrArg Except.ok
      (by norm_num [List.range_succ, runTrial, trialLoop, List.filterMap_cons,
        abs_of_nonneg])
  exact execute_model_first_crossing 1 3 0 1 1 (fun _ k => if k = 0 then 1/2 else 1)
    [⟨1, true, [1/2, 3/2]⟩] ⟨1, true, [1/2, 3/2]⟩ (by norm_num) (by norm_num)
    hok (List.mem_singleton_self _)

/-- C3: every returned outcome's evidence trace has length `latency + 1`. -/
theorem execute_model_evidence_length (n ms : Nat) (d sd c : ℚ)
    (samp : Nat → Nat → ℚ) (results : List ModelResult) (r : ModelResult)
    (hok : execute_model n ms d sd c samp = Except.ok results)
    (hr : r ∈ results) :
    r.evidence.length = r.latency + 1 := by
  obtain ⟨i, _, hsome⟩ := execute_model_mem_elim n ms d sd c samp results r hok hr
  obtain ⟨_, hev, _⟩ := runTrial_spec (samp i) ms c r hsome
  rw [hev, cumTrace_length]

/-- Witness for C3 on a concrete one-step crossing. -/
theorem execute_model_evidence_length_witness :
    (⟨0, true, [3]⟩ : ModelResult).evidence.length =
      (⟨0, true, [3]⟩ : ModelResult).latency + 1 := by
  have hok : execute_model 1 2 0 1 2 (fun _ _ => 3) =
      Except.ok [⟨0, true, [3]⟩] :=
    congrArg Except.ok
      (by norm_num [List.range_succ, runTrial, trialLoop, List.filterMap_cons])
  exact execute_model_evidence_length 1 2 0 1 2 (fun _ _ => 3)
    [⟨0, true, [3]⟩] ⟨0, true, [3]⟩ hok (List.mem_singleton_self _)

/-- C4: for `criterion > 0`, `response` is `true` exactly when the crossing
value `evidence[latency]` is positive, `false` exactly when it is negative,
and that value is never zero. -/
theorem execute_model_response_sign (n ms : Nat) (d sd c : ℚ)
    (samp : Nat → Nat → ℚ) (results : List ModelResult) (r : ModelResult)
    (hc : 0 < c)
    (hok : execute_model n ms d sd c samp = Except.ok results)
    (hr : r ∈ results) :
    (r.response = true ↔ 0 < r.evidence.getD r.latency 0) ∧
    (r.response = false ↔ r.evidence.getD r.latency 0 < 0) ∧
    r.evidence.getD r.latency 0 ≠ 0 := by
  obtain ⟨i, _, hsome⟩ := execute_model_mem_elim n ms d sd c samp results r hok hr
  obtain ⟨_, hev, hcross, _, hresp⟩ := runTrial_spec (samp i) ms c r hsome
  have hgd : r.evidence.getD r.latency 0 = sumTo (samp i) (r.latency + 1) := by
    rw [hev, cumTrace_getD (samp i) (r.latency + 1) r.latency (Nat.lt_succ_self _)]
  have hne : sumTo (samp i) (r.latency + 1) ≠ 0 := by
    intro h0
    rw [h0, abs_zero] at hcross
    linarith
  rw [hgd]
  refine ⟨?_, ?_, hne⟩
  · rw [hresp]
    constructor
    · intro h
      exact lt_of_le_of_ne (of_decide_eq_true h) (Ne.symm hne)
    · intro h
      exact decide_eq_true (le_of_lt h)
  · rw [hresp]
    constructor
    · intro h
      exact not_le.mp (of_decide_eq_false h)
    · intro h
      exact decide_eq_false (not_le.mpr h)

/-- Witness for C4 on a negative-boundary crossing: draws of `-2` against
`criterion = 1` give the outcome `⟨0, false, [-2]⟩`. -/
theorem execute_model_response_sign_witness :
    (0 : ℚ) < 1 ∧
    (((⟨0, false, [-2]⟩ : ModelResult).response = true ↔
        0 < (⟨0, false, [-2]⟩ : ModelResult).evidence.getD 0 0) ∧
      ((⟨0, false, [-2]⟩ : ModelResult).response = false ↔
        (⟨0, false, [-2]⟩ : ModelResult).evidence.getD 0 0 < 0) ∧
      (⟨0, false, [-2]⟩ : ModelResult).evidence.getD 0 0 ≠ 0) := by
  refine ⟨by norm_num, ?_⟩
  have hok : execute_model 1 1 0 1 1 (fun _ _ => -2) =
      Except.ok [⟨0, false, [-2]⟩] :=
    congrArg Except.ok
      (by norm_num [List.range_succ, runTrial, trialLoop, List.filterMap_cons])
  exact execute_model_response_sign 1 1 0 1 1 (fun _ _ => -2)
    [⟨0, false, [-2]⟩] ⟨0, false, [-2]⟩ (by norm_num) hok
    (List.mem_singleton_self _)

/-- C5: a returned collection never holds more than `num_reps` outcomes, and
every entry is the genuine outcome of one of the `num_reps` trials — an
abandoned trial contributes nothing at all. -/
theorem execute_model_card_le (n ms : Nat) (d sd c : ℚ) (samp : Nat → Nat → ℚ)
    (results : List ModelResult)
    (hok : execute_model n ms d sd c samp = Except.ok results) :
    results.length ≤ n ∧
    ∀ r ∈ results, ∃ i < n, runTrial (samp i) ms c = some r := by
  refine ⟨?_, fun r hr => execute_model_mem_elim n ms d sd c samp results r hok hr⟩
  rw [execute_model_ok_elim n ms d sd c samp results hok]
  calc ((List.range n).filterMap (fun i => runTrial (samp i) ms c)).length
      ≤ (List.range n).length := List.length_filterMap_le _ _
    _ = n := List.length_range n

/-- Witness for C5: two trials, one crossing and one abandoned, yield a
single-outcome collection of size `1 ≤ 2`. -/
theorem execute_model_card_le_witness :
    [(⟨0, true, [2]⟩ : ModelResult)].length ≤ 2 ∧
    ∀ r ∈ [(⟨0, true, [2]⟩ : ModelResult)], ∃ i < 2,
      runTrial ((fun i _ => if i = 0 then (2 : ℚ) else 0) i) 1 1 = some r := by
  have hok : execute_model 2 1 0 1 1 (fun i _ => if i = 0 then (2 : ℚ) else 0) =
      Except.ok [⟨0, true, [2]⟩] :=
    congrArg Except.ok
      (by norm_num [List.range_succ, runTrial, trialLoop, List.filterMap_cons])
  exact execute_model_card_le 2 1 0 1 1 (fun i _ => if i = 0 then (2 : ℚ) else 0)
    [⟨0, true, [2]⟩] hok

/-- C6: with valid parameters, `execute_model` still succeeds whatever the
trials do: the call returns `Ok` and its size is exactly the number of
trials whose walk crossed within budget — non-convergence (of any subset,
even all trials) is absorbed, never escalated to an error. -/
theorem execute_model_absorbs_failed_trials (n ms : Nat) (d sd c : ℚ)
    (samp : Nat → Nat → ℚ) (hsd : 0 < sd) (hc : 0 < c) :
    ∃ results, execute_model n ms d sd c samp = Except.ok results ∧
      results.length =
        (List.range n).countP (fun i => (runTrial (samp i) ms c).isSome) :=
  ⟨_, rfl, length_filterMap_eq_countP _ _⟩

/-- Witness for C6 where every one of the trials fails to converge (constant
zero draws never cross `criterion = 1`): the call still returns `Ok`. -/
theorem execute_model_absorbs_failed_trials_witness :
    (0 : ℚ) < 1 ∧
    ∃ results, execute_model 2 3 0 1 1 (fun _ _ => 0) = Except.ok results ∧
      results.length =
        (List.range 2).countP
          (fun i => (runTrial ((fun _ _ => (0 : ℚ)) i) 3 1).isSome) :=
  ⟨by norm_num,
    execute_model_absorbs_failed_trials 2 3 0 1 1 (fun _ _ => 0)
      (by norm_num) (by norm_num)⟩

/-- C7: with the per-trial sample streams, `drift`, `sdrw`, `criterion` and
`num_reps` fixed, enlarging `max_samples` never shrinks the returned
collection: each trial that crossed within the smaller budget crosses, with
the identical outcome, within the larger one. -/
theorem execute_model_count_mono (n m1 m2 : Nat) (d sd c : ℚ)
    (samp : Nat → Nat → ℚ) (l1 l2 : List ModelResult)
    (hm : m1 ≤ m2)
    (h1 : execute_model n m1 d sd c samp = Except.ok l1)
    (h2 : execute_model n m2 d sd c samp = Except.ok l2) :
    l1.length ≤ l2.length := by
  rw [execute_model_ok_elim n m1 d sd c samp l1 h1,
      execute_model_ok_elim n m2 d sd c samp l2 h2]
  exact length_filterMap_mono _ _ (List.range n)
    (fun i _ r hr => runTrial_mono (samp i) c m1 m2 r hm hr)

/-- Witness for C7: budget `0` yields no outcomes, budget `1` yields one;
`0 ≤ 1`. -/
theorem execute_model_count_mono_witness :
    (0 : Nat) ≤ 1 ∧
    ([] : List ModelResult).length ≤ [(⟨0, true, [2]⟩ : ModelResult)].length := by
  refine ⟨Nat.zero_le 1, ?_⟩
  have h1 : execute_model 1 0 0 1 1 (fun _ _ => 2) = Except.ok [] :=
    congrArg Except.ok
      (by norm_num [List.range_succ, runTrial, trialLoop, List.filterMap_cons])
  have h2 : execute_model 1 1 0 1 1 (fun _ _ => 2) =
      Except.ok [⟨0, true, [2]⟩] :=
    congrArg Except.ok
      (by norm_num [List.range_succ, runTrial, trialLoop, List.filterMap_cons])
  exact execute_model_count_mono 1 0 1 0 1 1 (fun _ _ => 2) []
    [⟨0, true, [2]⟩] (Nat.zero_le 1) h1 h2

/-- C8: every returned outcome's evidence trace is exactly the partial sums
of its trial's drawn samples: the trace is `cumTrace` of the trial's stream,
its first entry is the first draw (accumulator starts at `0.0`), and each
later entry adds the next draw to the previous entry. -/
theorem execute_model_evidence_cumsum (n ms : Nat) (d sd c : ℚ)
    (samp : Nat → Nat → ℚ) (results : List ModelResult) (r : ModelResult)
    (hok : execute_model n ms d sd c samp = Except.ok results)
    (hr : r ∈ results) :
    ∃ i < n, r.evidence = cumTrace (samp i) (r.latency + 1) ∧
      r.evidence.getD 0 0 = samp i 0 ∧
      ∀ j, j + 1 ≤ r.latency →
        r.evidence.getD (j + 1) 0 = r.evidence.getD j 0 + samp i (j + 1) := by
  obtain ⟨i, hi, hsome⟩ := execute_model_mem_elim n ms d sd c samp results r hok hr
  obtain ⟨_, hev, _⟩ := runTrial_spec (samp i) ms c r hsome
  refine ⟨i, hi, hev, ?_, ?_⟩
  · rw [hev, cumTrace_getD (samp i) (r.latency + 1) 0 (Nat.succ_pos _)]
    show sumTo (samp i) 0 + samp i 0 = samp i 0
    rw [show sumTo (samp i) 0 = 0 from rfl, zero_add]
  · intro j hj
    rw [hev, cumTrace_getD (samp i) (r.latency + 1) (j + 1) (by omega),
      cumTrace_getD (samp i) (r.latency + 1) j (by omega)]
    rfl

/-- Witness for C8 on the two-step walk drawing `1/2` then `1`. -/
theorem execute_model_evidence_cumsum_witness :
    ∃ i < 1,
      (⟨1, true, [1/2, 3/2]⟩ : ModelResult).evidence =
        cumTrace ((fun _ k => if k = 0 then (1/2 : ℚ) else 1) i)
          ((⟨1, true, [1/2, 3/2]⟩ : ModelResult).latency + 1) ∧
      (⟨1, true, [1/2, 3/2]⟩ : ModelResult).evidence.getD 0 0 =
        (fun _ k => if k = 0 then (1/2 : ℚ) else 1) i 0 ∧
      ∀ j, j + 1 ≤ (⟨1, true, [1/2, 3/2]⟩ : ModelResult).latency →
        (⟨1, true, [1/2, 3/2]⟩ : ModelResult).evidence.getD (j + 1) 0 =
          (⟨1, true, [1/2, 3/2]⟩ : ModelResult).evidence.getD j 0 +
            (fun _ k => if k = 0 then (1/2 : ℚ) else 1) i (j + 1) := by
  have hok : execute_model 1 3 0 1 1 (fun _ k => if k = 0 then (1/2 : ℚ) else 1) =
      Except.ok [⟨1, true, [1/2, 3/2]⟩] :=
    congrArg Except.ok
      (by norm_num [List.range_succ, runTrial, trialLoop, List.filterMap_cons,
        abs_of_nonneg])
  exact execute_model_evidence_cumsum 1 3 0 1 1
    (fun _ k => if k = 0 then (1/2 : ℚ) else 1) [⟨1, true, [1/2, 3/2]⟩]
    ⟨1, true, [1/2, 3/2]⟩ hok (List.mem_singleton_self _)

/-- C9: `execute_model` succeeds on every input whatsoever — no parameter is
validated, the `Err` branch of the `Result` is never produced, and the value
returned is always `Ok` of the collection built by running the trial loop. -/
theorem execute_model_always_ok (n ms : Nat) (d sd c : ℚ)
    (samp : Nat → Nat → ℚ) :
    ∃ results, execute_model n ms d sd c samp = Except.ok results ∧
      results = (List.range n).filterMap (fun i => runTrial (samp i) ms c) :=
  ⟨_, rfl, rfl⟩

/-- C10: with `num_reps = 0` the call returns `Ok` of the empty collection
(no trial is run); with `max_samples = 0` every trial's loop body runs zero
iterations, so every trial is abandoned and the call returns `Ok` of the
empty collection.  Both are plain terminating computations. -/
theorem execute_model_zero_counts :
    (∀ (ms : Nat) (d sd c : ℚ) (samp : Nat → Nat → ℚ),
        execute_model 0 ms d sd c samp = Except.ok []) ∧
    (∀ (n : Nat) (d sd c : ℚ) (samp : Nat → Nat → ℚ),
        execute_model n 0 d sd c samp = Except.ok []) := by
  constructor
  · intro ms d sd c samp
    rfl
  · intro n d sd c samp
    have h : ∀ i ∈ List.range n, runTrial (samp i) 0 c = none := fun i _ => rfl
    calc execute_model n 0 d sd c samp
        = Except.ok ((List.range n).filterMap (fun i => runTrial (samp i) 0 c)) :=
          rfl
      _ = Except.ok [] := by rw [List.filterMap_eq_nil_iff.mpr h]
